import Mathlib

/-!
Shallow embedding of the statistical core of `script.js` (a Box-Jenkins
time-series pipeline for a daily dollar-price series), together with proofs
of the specification claims about it.

Conventions used throughout:
* JS numbers are modelled as `ℚ` where the source only performs field
  arithmetic, and as `ℝ` where it uses `sqrt`/`log`/`exp`/`pow`.
* Where a JS computation can produce a non-finite number (`NaN` or
  `±Infinity`), the value is modelled as `Option ℝ` with `none` standing for
  "non-finite"; at every point where this matters for a claim the only
  non-finite value that can actually arise is `NaN`.
* JS arrays become `List`s; `for` loops over index ranges become maps over
  `List.range`/`List.range'` or structural recursions.
-/

namespace Dollar

/-- First differences of a price list: `differences[i] = price[i+1] - price[i]`
(script.js builds this list in several places, e.g. lines 252-256, 5196-5197). -/
def diffs {α : Type} [Sub α] (prices : List α) : List α :=
  prices.zipWith (fun a b => b - a) (prices.drop 1)

theorem diffs_length {α : Type} [Sub α] (prices : List α) :
    (diffs prices).length = prices.length - 1 := by
  cases prices with
  | nil => rfl
  | cons p t =>
    simp [diffs, List.length_zipWith]

/-! ## Forecasting engine (script.js:1664-1702, `generateRealForecastsForStage5`)

The deterministic AR(1)-on-differences forecaster.  In the source,
`diffForecasts[0] = phi * lastDiff` and `diffForecasts[h-1] = phi *
diffForecasts[h-2]` for `h ≥ 2`; `pointForecasts[h-1] = lastPrice +
sum(diffForecasts[0..h-1])`.  The `isFinite` guards in the source are
identities here because `ℚ` has no non-finite values. -/

/-- `diffForecast phi dLast h` is `diffForecasts[h]` (0-based; horizon `h+1`)
of script.js:1681-1684. -/
def diffForecast (phi dLast : ℚ) : ℕ → ℚ
  | 0 => phi * dLast
  | h + 1 => phi * diffForecast phi dLast h

/-- The array `diffForecasts` for horizon `H` (the source fixes `H = 12`). -/
def diffForecasts (phi dLast : ℚ) (H : ℕ) : List ℚ :=
  (List.range H).map (diffForecast phi dLast)

/-- `pointForecasts[h-1] = lastPrice + Σ diffForecasts[0..h-1]`
(script.js:1687-1690). -/
def pointForecast (phi dLast lastPrice : ℚ) (h : ℕ) : ℚ :=
  lastPrice + ((diffForecasts phi dLast h).sum)

/-- C1: the forecasting routine computes difference forecasts recursively
(`diff[1] = phi*dLast`, `diff[h] = phi*diff[h-1]` for `h ≥ 2`) and level
forecasts cumulatively (`level[h] = yLast + Σ diff[1..h]`); and for
`phi = 0.5`, `dLast = 2.0`, `yLast = 100` the difference forecasts at
horizons 1..3 are exactly `[1.0, 0.5, 0.25]` and the level forecast at
horizon 3 is exactly `101.75`. -/
theorem forecast_recursion_and_roundtrip :
    (∀ phi dLast : ℚ, diffForecast phi dLast 0 = phi * dLast) ∧
    (∀ (phi dLast : ℚ) (h : ℕ),
      diffForecast phi dLast (h + 1) = phi * diffForecast phi dLast h) ∧
    (∀ (phi dLast lastPrice : ℚ) (h : ℕ),
      pointForecast phi dLast lastPrice h =
        lastPrice + ((List.range h).map (diffForecast phi dLast)).sum) ∧
    diffForecasts (1/2) 2 3 = [1, 1/2, 1/4] ∧
    pointForecast (1/2) 2 100 3 = 101.75 := by
  refine ⟨fun _ _ => rfl, fun _ _ _ => rfl, fun _ _ _ _ => rfl, ?_, ?_⟩ <;>
    norm_num [diffForecasts, pointForecast, diffForecast, List.range_succ]

/-! ## Model selection (script.js:1049-1080, `generateModelSelectionForStage2`)

The source builds a list of three candidate records `{name, AIC, BIC, ...}`,
filters out candidates with non-finite AIC or BIC
(`.filter(m => isFinite(m.AIC) && isFinite(m.BIC))`), sorts the remainder with
the comparator `(a, b) => (a.AIC - b.AIC) || (a.BIC - b.BIC)` (JS sort is
stable for a consistent comparator), and assigns `rank = i + 1`.  A candidate
is modelled with rational AIC/BIC values plus two flags standing for the two
`isFinite` tests. -/

structure CandidateModel where
  name : String
  AIC : ℚ
  BIC : ℚ
  AICfinite : Bool
  BICfinite : Bool
deriving DecidableEq

/-- The ordering decided by the comparator
`(a, b) => (a.AIC - b.AIC) || (a.BIC - b.BIC)`: ascending AIC, BIC as
tie-break. -/
def modelLE (a b : CandidateModel) : Prop :=
  a.AIC < b.AIC ∨ (a.AIC = b.AIC ∧ a.BIC ≤ b.BIC)

instance : DecidableRel modelLE := fun a b => by
  unfold modelLE; infer_instance

/-- Insert into a sorted list, keeping the inserted element before the first
element it compares `le` to (the stable position). -/
def insertLE {α : Type} (le : α → α → Bool) (a : α) : List α → List α
  | [] => [a]
  | b :: t => if le a b then a :: b :: t else b :: insertLE le a t

/-- Stable insertion sort: the unique stable result of JS `Array.sort` for a
consistent comparator over a total preorder. -/
def insertionSort {α : Type} (le : α → α → Bool) : List α → List α
  | [] => []
  | a :: t => insertLE le a (insertionSort le t)

theorem insertLE_perm {α : Type} (le : α → α → Bool) (a : α) (l : List α) :
    List.Perm (insertLE le a l) (a :: l) := by
  induction l with
  | nil => rfl
  | cons b t ih =>
    simp only [insertLE]
    split
    · exact List.Perm.refl _
    · exact (ih.cons b).trans (List.Perm.swap a b t)

theorem mem_insertLE {α : Type} (le : α → α → Bool) (a x : α) (l : List α) :
    x ∈ insertLE le a l ↔ x = a ∨ x ∈ l := by
  rw [(insertLE_perm le a l).mem_iff]; simp

theorem insertLE_sorted {α : Type} (le : α → α → Bool)
    (htot : ∀ a b, le a b = true ∨ le b a = true)
    (htrans : ∀ a b c, le a b = true → le b c = true → le a c = true)
    (a : α) : ∀ l : List α, l.Pairwise (fun x y => le x y = true) →
    (insertLE le a l).Pairwise (fun x y => le x y = true) := by
  intro l
  induction l with
  | nil => intro _; simp [insertLE]
  | cons b t ih =>
    intro hl
    rcases List.pairwise_cons.mp hl with ⟨hb, ht⟩
    simp only [insertLE]
    split
    · rename_i hab
      refine List.pairwise_cons.mpr ⟨?_, hl⟩
      intro x hx
      rcases List.mem_cons.mp hx with rfl | hx
      · exact hab
      · exact htrans a b x hab (hb x hx)
    · rename_i hab
      refine List.pairwise_cons.mpr ⟨?_, ih ht⟩
      intro x hx
      rcases (mem_insertLE le a x t).mp hx with rfl | hx
      · rcases htot x b with h | h
        · exact absurd h hab
        · exact h
      · exact hb x hx

theorem insertionSort_perm {α : Type} (le : α → α → Bool) (l : List α) :
    List.Perm (insertionSort le l) l := by
  induction l with
  | nil => rfl
  | cons a t ih => exact (insertLE_perm le a _).trans (ih.cons a)

theorem insertionSort_sorted {α : Type} (le : α → α → Bool)
    (htot : ∀ a b, le a b = true ∨ le b a = true)
    (htrans : ∀ a b c, le a b = true → le b c = true → le a c = true)
    (l : List α) :
    (insertionSort le l).Pairwise (fun x y => le x y = true) := by
  induction l with
  | nil => simp [insertionSort]
  | cons a t ih => exact insertLE_sorted le htot htrans a _ ih

/-- Attach consecutive ranks starting at `i`: models
`models.forEach((m, i) => m.rank = i + 1)` (script.js:1078). -/
def attachRanks {α : Type} (i : ℕ) : List α → List (ℕ × α)
  | [] => []
  | a :: t => (i, a) :: attachRanks (i + 1) t

theorem attachRanks_map_snd {α : Type} (i : ℕ) (l : List α) :
    (attachRanks i l).map Prod.snd = l := by
  induction l generalizing i with
  | nil => rfl
  | cons a t ih => simp [attachRanks, ih]

theorem attachRanks_map_fst {α : Type} (i : ℕ) (l : List α) :
    (attachRanks i l).map Prod.fst = List.range' i l.length := by
  induction l generalizing i with
  | nil => rfl
  | cons a t ih => simp [attachRanks, ih, List.range']

/-- The ranking logic of `generateModelSelectionForStage2`
(script.js:1074-1078): filter non-finite candidates, sort ascending by AIC
with BIC tie-break, assign ranks `1..N`. -/
def rankModels (models : List CandidateModel) : List (ℕ × CandidateModel) :=
  let kept := models.filter (fun m => m.AICfinite && m.BICfinite)
  let sorted := insertionSort (fun a b => decide (modelLE a b)) kept
  attachRanks 1 sorted

theorem modelLE_total (a b : CandidateModel) :
    decide (modelLE a b) = true ∨ decide (modelLE b a) = true := by
  simp only [decide_eq_true_eq, modelLE]
  rcases lt_trichotomy a.AIC b.AIC with h | h | h
  · exact Or.inl (Or.inl h)
  · rcases le_total a.BIC b.BIC with hb | hb
    · exact Or.inl (Or.inr ⟨h, hb⟩)
    · exact Or.inr (Or.inr ⟨h.symm, hb⟩)
  · exact Or.inr (Or.inl h)

theorem modelLE_trans (a b c : CandidateModel) :
    decide (modelLE a b) = true → decide (modelLE b c) = true →
    decide (modelLE a c) = true := by
  simp only [decide_eq_true_eq, modelLE]
  rintro (h1 | ⟨h1, h1b⟩) (h2 | ⟨h2, h2b⟩)
  · exact Or.inl (h1.trans h2)
  · exact Or.inl (h2 ▸ h1)
  · exact Or.inl (h1 ▸ h2)
  · exact Or.inr ⟨h1.trans h2, h1b.trans h2b⟩

/-- C2: model selection removes candidates with non-finite AIC/BIC, sorts the
rest ascending by AIC with BIC tie-break, and assigns ranks `1..N`
deterministically; for three finite candidates with AIC `[10, 5, 7]` the
ranking is rank 1 → AIC 5, rank 2 → AIC 7, rank 3 → AIC 10. -/
theorem modelSelection_ranks_by_AIC_then_BIC :
    (∀ ms : List CandidateModel,
      List.Perm ((rankModels ms).map Prod.snd)
        (ms.filter (fun m => m.AICfinite && m.BICfinite)) ∧
      ((rankModels ms).map Prod.snd).Pairwise modelLE ∧
      (rankModels ms).map Prod.fst =
        List.range' 1 (ms.filter (fun m => m.AICfinite && m.BICfinite)).length) ∧
    rankModels
      [⟨"ARIMA(1,1,0)", 10, 1, true, true⟩,
       ⟨"ARIMA(0,1,1)", 5, 2, true, true⟩,
       ⟨"ARIMA(1,1,1)", 7, 3, true, true⟩] =
      [(1, ⟨"ARIMA(0,1,1)", 5, 2, true, true⟩),
       (2, ⟨"ARIMA(1,1,1)", 7, 3, true, true⟩),
       (3, ⟨"ARIMA(1,1,0)", 10, 1, true, true⟩)] := by
  constructor
  · intro ms
    have hperm := insertionSort_perm (fun a b => decide (modelLE a b))
      (ms.filter (fun m => m.AICfinite && m.BICfinite))
    have hsorted := insertionSort_sorted (fun a b => decide (modelLE a b))
      modelLE_total modelLE_trans
      (ms.filter (fun m => m.AICfinite && m.BICfinite))
    refine ⟨?_, ?_, ?_⟩
    · simpa [rankModels, attachRanks_map_snd] using hperm
    · rw [rankModels]
      simp only [attachRanks_map_snd]
      exact hsorted.imp (fun h => of_decide_eq_true h)
    · rw [rankModels]
      simp only [attachRanks_map_fst, hperm.length_eq]
  · norm_num [rankModels, insertionSort, insertLE, modelLE, List.filter,
      attachRanks]

/-! ## Descriptive statistics and outliers (script.js:106-191, 282-316)

`calculateDescriptiveStats` first filters non-finite entries (the identity on
`ℚ`), returns an all-NaN object for `n = 0` (modelled as `none`), a degenerate
object for `n = 1`, and the full formulas for `n ≥ 2`.  Only the fields that
are pure field arithmetic (and are consumed by the claims) are modelled;
`stdDev`, `cv`, `skewness`, `kurtosis` involve `Math.sqrt` and are consumed by
no claim.  The quartile indices `Math.floor(n*0.25)` and `Math.floor(n*0.75)`
are exactly `n / 4` and `3 * n / 4` in natural division. -/

structure DescriptiveStats where
  n : ℕ
  mean : ℚ
  median : ℚ
  variance : ℚ
  range : ℚ
  min : ℚ
  max : ℚ
  q1 : ℚ
  q3 : ℚ
deriving DecidableEq

/-- `calculateDescriptiveStats` (script.js:106-175); `none` is the `n = 0`
all-NaN result (script.js:114-130). -/
def calculateDescriptiveStats (data : List ℚ) : Option DescriptiveStats :=
  let prices := data
  let n := prices.length
  if n = 0 then none
  else if n = 1 then
    let only := prices.getD 0 0
    some ⟨1, only, only, 0, 0, only, only, only, only⟩
  else
    let mean := prices.sum / n
    let sortedPrices := insertionSort (fun a b => decide (a ≤ b)) prices
    let median :=
      if n % 2 = 0 then
        (sortedPrices.getD (n / 2 - 1) 0 + sortedPrices.getD (n / 2) 0) / 2
      else sortedPrices.getD (n / 2) 0
    let variance := (prices.map (fun p => (p - mean) ^ 2)).sum / ((n : ℚ) - 1)
    let mx := (prices.max?).getD 0
    let mn := (prices.min?).getD 0
    some ⟨n, mean, median, variance, mx - mn, mn, mx,
      sortedPrices.getD (n / 4) 0, sortedPrices.getD (3 * n / 4) 0⟩

/-- One flagged outlier; `type` is the source's tag, `"inferior"` for a value
below the lower bound ("below") and `"superior"` for one above the upper
bound ("above"). -/
structure Outlier where
  index : ℕ
  price : ℚ
  type : String
deriving DecidableEq

/-- `detectOutliers` (script.js:282-316), numeric-array path: 1.5×IQR fence
around `[q1, q3]`.  When the stats object is all-NaN (empty input) every
comparison against the NaN bounds is false, so no outlier is flagged. -/
def detectOutliers (data : List ℚ) : List Outlier :=
  match calculateDescriptiveStats data with
  | none => []
  | some stats =>
    let iqr := stats.q3 - stats.q1
    let lowerBound := stats.q1 - 1.5 * iqr
    let upperBound := stats.q3 + 1.5 * iqr
    (attachRanks 0 data).filterMap (fun p =>
      if p.2 < lowerBound ∨ upperBound < p.2 then
        some ⟨p.1, p.2, if p.2 < lowerBound then "inferior" else "superior"⟩
      else none)

/-- C8: outlier detection flags exactly the values outside
`[Q1 - 1.5*IQR, Q3 + 1.5*IQR]` with `Q1`/`Q3` the sorted values at indices
`floor(n*0.25)`/`floor(n*0.75)` and `IQR = Q3 - Q1`, tagging each flagged
value as below (`"inferior"`) or above (`"superior"`) with its index; on
`[1,2,3,4,5,100]` the single outlier is value `100` at index 5, tagged above. -/
theorem detectOutliers_flags_IQR_fence :
    (∀ data : List ℚ,
      detectOutliers data =
        (attachRanks 0 data).filterMap (fun p =>
          let sorted := insertionSort (fun a b => decide (a ≤ b)) data
          let q1 := sorted.getD (data.length / 4) 0
          let q3 := sorted.getD (3 * data.length / 4) 0
          let iqr := q3 - q1
          if p.2 < q1 - 1.5 * iqr ∨ q3 + 1.5 * iqr < p.2 then
            some ⟨p.1, p.2,
              if p.2 < q1 - 1.5 * iqr then "inferior" else "superior"⟩
          else none)) ∧
    detectOutliers [1, 2, 3, 4, 5, 100] = [⟨5, 100, "superior"⟩] := by
  constructor
  · intro data
    cases data with
    | nil => rfl
    | cons a t =>
      cases t with
      | nil => simp [detectOutliers, calculateDescriptiveStats, insertionSort,
          insertLE]
      | cons b t2 => simp [detectOutliers, calculateDescriptiveStats]
  · norm_num [detectOutliers, calculateDescriptiveStats, insertionSort,
      insertLE, attachRanks, List.filterMap]

/-! ## AR(1) fit on differences (script.js:5191-5221, `fitAR1OnDiff`)

`fitAR1OnDiff` guards `prices.length < 3` and then returns the literal object
`{phi: NaN, residuals: [], sigma2: NaN, se: NaN, t: NaN, pValue: NaN,
AIC: NaN, BIC: NaN}`; this all-NaN early return is modelled as `none`.  In the
main branch every returned field below is plain field arithmetic on `ℚ`
(`se`, `t`, `pValue`, `AIC`, `BIC` involve `sqrt`/`log` and are modelled
separately as real-valued functions of the fit). -/

structure AR1Fit where
  phi : ℚ
  residuals : List ℚ
  sigma2 : ℚ
deriving DecidableEq

/-- `fitAR1OnDiff` (script.js:5191-5221): regress `diff[t]` on `diff[t-1]`
through the origin (`phi = Σ y*x / Σ x*x`, guarded `den ? num/den : 0`),
residuals `y - phi*x`, `sigma2 = Σ e² / max(1, nEff)`. -/
def fitAR1OnDiff (prices : List ℚ) : Option AR1Fit :=
  if prices.length < 3 then none
  else
    let returns := diffs prices
    let n := returns.length
    let y := returns.drop 1
    let x := returns.take (n - 1)
    let num := ((y.zip x).map (fun p => p.1 * p.2)).sum
    let den := (x.map (fun v => v * v)).sum
    let phi := if den = 0 then 0 else num / den
    let residuals := y.zipWith (fun yi xi => yi - phi * xi) x
    let nEff := residuals.length
    let sigma2 := (residuals.map (fun e => e * e)).sum / (max 1 nEff : ℕ)
    some ⟨phi, residuals, sigma2⟩

/-- C5 (amended): the AR(1)-on-differences fitter returns the all-NaN result
with empty residuals exactly when the difference sequence has fewer than 2
elements (the source guard is `prices.length < 3`, i.e. fewer than 2
differences — not fewer than 3 as claimed), and otherwise returns the
closed-form least-squares fit; it never throws (it is a total function). -/
theorem fitAR1_short_guard_and_closed_form :
    ∀ prices : List ℚ,
      (fitAR1OnDiff prices = none ↔ (diffs prices).length < 2) ∧
      (∀ f : AR1Fit, fitAR1OnDiff prices = some f →
        f.residuals.length = (diffs prices).length - 1 ∧
        f.phi = (if ((((diffs prices).take ((diffs prices).length - 1)).map
                    (fun v => v * v)).sum) = 0 then 0
                 else ((((diffs prices).drop 1).zip
                        ((diffs prices).take ((diffs prices).length - 1))).map
                      (fun p => p.1 * p.2)).sum /
                   ((((diffs prices).take ((diffs prices).length - 1)).map
                    (fun v => v * v)).sum)) ∧
        f.residuals = ((diffs prices).drop 1).zipWith
            (fun yi xi => yi - f.phi * xi)
            ((diffs prices).take ((diffs prices).length - 1)) ∧
        f.sigma2 = ((f.residuals.map (fun e => e * e)).sum /
            (max 1 f.residuals.length : ℕ))) := by
  intro prices
  constructor
  · rw [fitAR1OnDiff, diffs_length]
    split
    · simpa using (by omega : prices.length - 1 < 2)
    · simp only [reduceCtorEq, false_iff]
      omega
  · intro f hf
    rw [fitAR1OnDiff] at hf
    split at hf
    · exact absurd hf (by simp)
    · rw [Option.some_inj] at hf
      subst hf
      refine ⟨?_, rfl, rfl, rfl⟩
      simp [List.length_zipWith, diffs_length]

/-- Witness for C5's amended theorem at `prices = [0, 1, 3]`
(`f = ⟨2, [0], 0⟩`). -/
theorem fitAR1_short_guard_witness :
    (fitAR1OnDiff [0, 1, 3] = none ↔ (diffs ([0, 1, 3] : List ℚ)).length < 2) ∧
    ((⟨2, [0], 0⟩ : AR1Fit).residuals.length = (diffs ([0, 1, 3] : List ℚ)).length - 1 ∧
     (⟨2, [0], 0⟩ : AR1Fit).phi =
       (if ((((diffs ([0, 1, 3] : List ℚ)).take ((diffs ([0, 1, 3] : List ℚ)).length - 1)).map
            (fun v => v * v)).sum) = 0 then 0
        else ((((diffs ([0, 1, 3] : List ℚ)).drop 1).zip
               ((diffs ([0, 1, 3] : List ℚ)).take ((diffs ([0, 1, 3] : List ℚ)).length - 1))).map
             (fun p => p.1 * p.2)).sum /
          ((((diffs ([0, 1, 3] : List ℚ)).take ((diffs ([0, 1, 3] : List ℚ)).length - 1)).map
           (fun v => v * v)).sum)) ∧
     (⟨2, [0], 0⟩ : AR1Fit).residuals = ((diffs ([0, 1, 3] : List ℚ)).drop 1).zipWith
         (fun yi xi => yi - (⟨2, [0], 0⟩ : AR1Fit).phi * xi)
         ((diffs ([0, 1, 3] : List ℚ)).take ((diffs ([0, 1, 3] : List ℚ)).length - 1)) ∧
     (⟨2, [0], 0⟩ : AR1Fit).sigma2 = (((⟨2, [0], 0⟩ : AR1Fit).residuals.map
         (fun e => e * e)).sum /
         (max 1 (⟨2, [0], 0⟩ : AR1Fit).residuals.length : ℕ))) :=
  ⟨(fitAR1_short_guard_and_closed_form [0, 1, 3]).1,
   (fitAR1_short_guard_and_closed_form [0, 1, 3]).2 ⟨2, [0], 0⟩
     (by norm_num [fitAR1OnDiff, diffs])⟩

/-- Counterexample to C5 as stated: `[0, 1, 3]` has only 2 differences
(fewer than 3), yet the fitter returns a real fit with `phi = 2`, a
non-empty residual list `[0]` and `sigma2 = 0` — not the all-NaN result. -/
theorem fitAR1_short_claim_counterexample :
    (diffs ([0, 1, 3] : List ℚ)).length < 3 ∧
    fitAR1OnDiff [0, 1, 3] = some ⟨2, [0], 0⟩ := by
  constructor
  · norm_num [diffs]
  · norm_num [fitAR1OnDiff, diffs]

/-! ## Autocorrelation engine (script.js:194-243)

`calculateACF` and `calculatePACF`, numeric-array path.  `ℝ` division by zero
yields `0` where JS yields `NaN` (possible only for a constant series, where
the numerator is also `0`); no claim depends on that case: C10 assumes a
nonzero denominator and C7 relates the PACF output to the ACF output whatever
its entries are. -/

/-- `calculateACF` (script.js:194-219): lag-0 entry is the literal `1`; for
`lag ≥ 1`, the full-sample-mean, full-sample-denominator quotient. -/
noncomputable def calculateACF (prices : List ℝ) (maxLags : ℕ) : List ℝ :=
  let n := prices.length
  let mean := prices.sum / n
  (List.range (maxLags + 1)).map (fun lag =>
    let numerator := ((List.range (n - lag)).map (fun i =>
      (prices.getD i 0 - mean) * (prices.getD (i + lag) 0 - mean))).sum
    let denominator := (prices.map (fun p => (p - mean) ^ 2)).sum
    if lag = 0 then 1 else numerator / denominator)

/-- The loop of `calculatePACF` (script.js:226-240): `pacfLoop acf k` is the
`pacf` array after the iteration for lag `k`; the step for lag `k ≥ 2`
divides by the literal `denominator = 1` of the simplified Durbin-Levinson
recursion. -/
noncomputable def pacfLoop (acf : List ℝ) : ℕ → List ℝ
  | 0 => [1]
  | k + 1 =>
    let prev := pacfLoop acf k
    let value :=
      if k + 1 = 1 then acf.getD 1 0
      else (acf.getD (k + 1) 0 -
        ((List.range k).map (fun j =>
          prev.getD (j + 1) 0 * acf.getD (k + 1 - (j + 1)) 0)).sum) / 1
    prev ++ [value]

/-- `calculatePACF` (script.js:222-243). -/
noncomputable def calculatePACF (prices : List ℝ) (maxLags : ℕ) : List ℝ :=
  pacfLoop (calculateACF prices maxLags) maxLags

theorem pacfLoop_length (acf : List ℝ) (k : ℕ) :
    (pacfLoop acf k).length = k + 1 := by
  induction k with
  | zero => rfl
  | succ k ih => simp [pacfLoop, ih]

theorem pacfLoop_getD_stable (acf : List ℝ) (k2 k j : ℕ) (hk : k ≤ k2)
    (hj : j ≤ k) :
    (pacfLoop acf k2).getD j 0 = (pacfLoop acf k).getD j 0 := by
  induction k2 with
  | zero =>
    have : k = 0 := Nat.le_zero.mp hk
    subst this; rfl
  | succ k2 ih =>
    rcases Nat.lt_or_ge k (k2 + 1) with h | h
    · have hks : k ≤ k2 := Nat.lt_succ_iff.mp h
      rw [← ih hks]
      show ((pacfLoop acf k2) ++ [_]).getD j 0 = _
      rw [List.getD_append]
      rw [pacfLoop_length]
      omega
    · have : k = k2 + 1 := le_antisymm hk h
      subst this; rfl

theorem getD_map_range {α : Type} (f : ℕ → α) (n k : ℕ) (hk : k < n) (d : α) :
    (((List.range n).map f).getD k d) = f k := by
  simp [List.getD, List.getElem?_map, List.getElem?_range, hk]

theorem getD_concat_length {α : Type} (l : List α) (a d : α) :
    (l ++ [a]).getD l.length d = a := by
  simp [List.getD, List.getElem?_concat_length]

theorem pacf_value (acf : List ℝ) (maxLag k : ℕ) (hk2 : 2 ≤ k)
    (hkm : k ≤ maxLag) :
    (pacfLoop acf maxLag).getD k 0 =
      acf.getD k 0 - ((List.range (k - 1)).map (fun j =>
        (pacfLoop acf maxLag).getD (j + 1) 0 * acf.getD (k - (j + 1)) 0)).sum := by
  rw [pacfLoop_getD_stable acf maxLag k k hkm (le_refl k)]
  obtain ⟨k1, rfl⟩ : ∃ k1, k = k1 + 1 := ⟨k - 1, by omega⟩
  show ((pacfLoop acf k1) ++ [_]).getD (k1 + 1) 0 = _
  have hlen : (pacfLoop acf k1).length = k1 + 1 := pacfLoop_length acf k1
  rw [← hlen, getD_concat_length, hlen]
  have h1 : ¬ (k1 + 1 = 1) := by omega
  rw [if_neg h1, div_one]
  have hk1m : k1 ≤ maxLag := by omega
  have hmap : (List.range k1).map (fun j =>
      (pacfLoop acf k1).getD (j + 1) 0 * acf.getD (k1 + 1 - (j + 1)) 0) =
      (List.range k1).map (fun j =>
      (pacfLoop acf maxLag).getD (j + 1) 0 * acf.getD (k1 + 1 - (j + 1)) 0) := by
    refine List.map_congr_left ?_
    intro j hj
    have hjk : j < k1 := List.mem_range.mp hj
    rw [pacfLoop_getD_stable acf maxLag k1 (j + 1) hk1m (by omega)]
  rw [hmap]
  simp

theorem pacf_entry_one (acf : List ℝ) (maxLag : ℕ) (h : 1 ≤ maxLag) :
    (pacfLoop acf maxLag).getD 1 0 = acf.getD 1 0 := by
  rw [pacfLoop_getD_stable acf maxLag 1 1 h (le_refl 1)]
  simp [pacfLoop]

theorem pacf_entry_zero (acf : List ℝ) (maxLag : ℕ) :
    (pacfLoop acf maxLag).getD 0 0 = 1 := by
  rw [pacfLoop_getD_stable acf maxLag 0 0 (Nat.zero_le _) (le_refl 0)]
  rfl

/-- C7: for every sequence and every `maxLag ≥ 1`, PACF has length
`maxLag + 1`, entry 0 is exactly 1, entry 1 equals `ACF(1)`, and for every
`2 ≤ k ≤ maxLag` entry `k` equals
`ACF(k) - Σ_{j=1}^{k-1} PACF(j)·ACF(k-j)` with denominator 1 (the simplified
Durbin-Levinson recursion of the source, `j + 1` here ranging over `1..k-1`). -/
theorem pacf_simplified_durbin_levinson (prices : List ℝ) (maxLag k : ℕ)
    (hmax : 1 ≤ maxLag) (hk2 : 2 ≤ k) (hkm : k ≤ maxLag) :
    (calculatePACF prices maxLag).length = maxLag + 1 ∧
    (calculatePACF prices maxLag).getD 0 0 = 1 ∧
    (calculatePACF prices maxLag).getD 1 0 =
      (calculateACF prices maxLag).getD 1 0 ∧
    (calculatePACF prices maxLag).getD k 0 =
      (calculateACF prices maxLag).getD k 0 -
        ((List.range (k - 1)).map (fun j =>
          (calculatePACF prices maxLag).getD (j + 1) 0 *
            (calculateACF prices maxLag).getD (k - (j + 1)) 0)).sum :=
  ⟨pacfLoop_length _ maxLag, pacf_entry_zero _ maxLag,
   pacf_entry_one _ maxLag hmax, pacf_value _ maxLag k hk2 hkm⟩

/-- Witness for C7 at `prices = [1, 2, 4]`, `maxLag = 2`, `k = 2`. -/
theorem pacf_simplified_durbin_levinson_witness :
    ((1 : ℕ) ≤ 2 ∧ (2 : ℕ) ≤ 2 ∧ (2 : ℕ) ≤ 2) ∧
    ((calculatePACF [1, 2, 4] 2).length = 2 + 1 ∧
     (calculatePACF [1, 2, 4] 2).getD 0 0 = 1 ∧
     (calculatePACF [1, 2, 4] 2).getD 1 0 =
       (calculateACF [1, 2, 4] 2).getD 1 0 ∧
     (calculatePACF [1, 2, 4] 2).getD 2 0 =
       (calculateACF [1, 2, 4] 2).getD 2 0 -
         ((List.range (2 - 1)).map (fun j =>
           (calculatePACF [1, 2, 4] 2).getD (j + 1) 0 *
             (calculateACF [1, 2, 4] 2).getD (2 - (j + 1)) 0)).sum) :=
  ⟨⟨by decide, by decide, by decide⟩,
   pacf_simplified_durbin_levinson [1, 2, 4] 2 2 (by decide) (by decide)
     (by decide)⟩

/-! ## The shared lag-k autocorrelation helper (script.js:5156-5174) -/

theorem getD_map_range2 {α : Type} (f : ℕ → α) (s n i : ℕ) (hi : i < n)
    (d : α) : (((List.range' s n).map f).getD i d) = f (s + i) := by
  simp [List.getD, List.getElem?_map, List.getElem?_range', hi]

/-- `computeAutocorrelations` (script.js:5156-5174): lag `1..m` sample
autocorrelations with full-sample mean and denominator; an `m`-long NaN fill
(`none`s) when `n < m + 1`; the division is guarded (`denom ? num/denom : 0`),
so every entry of the main branch is a finite real (`some`). -/
noncomputable def computeAutocorrelations (values : List ℝ) (m : ℕ) :
    List (Option ℝ) :=
  let n := values.length
  if n < m + 1 then List.replicate m none
  else
    let mean := values.sum / n
    let denom := (values.map (fun v => (v - mean) * (v - mean))).sum
    (List.range' 1 m).map (fun k =>
      let num := ((List.range' k (n - k)).map (fun t =>
        (values.getD t 0 - mean) * (values.getD (t - k) 0 - mean))).sum
      some (if denom = 0 then 0 else num / denom))

/-- C10: on their common domain (`n ≥ m + 1`, nonzero centered sum of
squares), entry `k - 1` of the diagnostics helper `computeAutocorrelations`
equals entry `k` of `calculateACF`, for every `1 ≤ k ≤ m`: both compute the
same full-sample-mean, full-sample-denominator quotient. -/
theorem autocorrelation_helpers_agree (values : List ℝ) (m k : ℕ)
    (hn : m + 1 ≤ values.length) (hk1 : 1 ≤ k) (hkm : k ≤ m)
    (hden : (values.map (fun v =>
      (v - values.sum / values.length) ^ 2)).sum ≠ 0) :
    (computeAutocorrelations values m).getD (k - 1) none =
      some ((calculateACF values m).getD k 0) := by
  have hsq : (values.map (fun v => (v - values.sum / values.length) *
      (v - values.sum / values.length))).sum =
      (values.map (fun v => (v - values.sum / values.length) ^ 2)).sum := by
    refine congrArg List.sum (List.map_congr_left ?_)
    intro v _
    ring
  rw [computeAutocorrelations, calculateACF]
  simp only
  rw [if_neg (by omega)]
  rw [getD_map_range2 _ 1 m (k - 1) (by omega) none]
  rw [getD_map_range _ (m + 1) k (by omega) 0]
  have hk2 : 1 + (k - 1) = k := by omega
  rw [hk2]
  rw [if_neg (by omega : ¬ k = 0)]
  rw [hsq, if_neg hden]
  congr 2
  rw [List.range'_eq_map_range, List.map_map]
  refine congrArg List.sum (List.map_congr_left ?_)
  intro i hi
  simp only [Function.comp]
  have h1 : k + i - k = i := by omega
  have h2 : i + k = k + i := by omega
  rw [h1, h2, mul_comm]

/-- Witness for C10 at `values = [1, 2]`, `m = 1`, `k = 1`. -/
theorem autocorrelation_helpers_agree_witness :
    (1 + 1 ≤ ([1, 2] : List ℝ).length ∧ (1 : ℕ) ≤ 1 ∧ (1 : ℕ) ≤ 1 ∧
     (([1, 2] : List ℝ).map (fun v =>
       (v - ([1, 2] : List ℝ).sum / ([1, 2] : List ℝ).length) ^ 2)).sum ≠ 0) ∧
    (computeAutocorrelations [1, 2] 1).getD (1 - 1) none =
      some ((calculateACF [1, 2] 1).getD 1 0) :=
  ⟨⟨by decide, by decide, by decide, by norm_num⟩,
   autocorrelation_helpers_agree [1, 2] 1 1 (by decide) (by decide) (by decide)
     (by norm_num)⟩

/-! ## Non-finite-propagating arithmetic for the diagnostic tests

JS numbers in the diagnostics are modelled as `Option ℝ`: `none` stands for a
non-finite value (`NaN`, or `±Infinity` — conflated, see the file header; in
every place a claim depends on, the division producing `none` is a `0/0`,
i.e. a genuine `NaN`).  The operations propagate `none` exactly as JS
arithmetic propagates `NaN`. -/

def oAdd : Option ℝ → Option ℝ → Option ℝ
  | some x, some y => some (x + y)
  | _, _ => none

def oSub : Option ℝ → Option ℝ → Option ℝ
  | some x, some y => some (x - y)
  | _, _ => none

def oMul : Option ℝ → Option ℝ → Option ℝ
  | some x, some y => some (x * y)
  | _, _ => none

/-- JS division: a zero divisor yields a non-finite result. -/
noncomputable def oDiv : Option ℝ → Option ℝ → Option ℝ
  | some x, some y => if y = 0 then none else some (x / y)
  | _, _ => none

/-- JS `Math.sqrt`: `NaN` for a negative argument, `NaN` propagates. -/
noncomputable def oSqrt (a : Option ℝ) : Option ℝ :=
  a.bind (fun x => if x < 0 then none else some (Real.sqrt x))

/-! ## ADF test (script.js:246-279, `adfTest`) -/

structure AdfResult where
  statistic : Option ℝ
  isStationary : Bool
  pValue : Option ℝ

/-- `adfTest` (script.js:246-279): statistic
`meanDiff / sqrt(variance / nDiff)` over the first differences; fixed
critical values; `isStationary` is the JS comparison `adfStat < -2.86`
(false when the statistic is `NaN`); the p-value is the literal placeholder
`0.03` (stationary) or `0.15`. -/
noncomputable def adfTest (prices : List ℝ) : AdfResult :=
  let differences := diffs prices
  let n := differences.length
  let meanDiff := oDiv (some differences.sum) (some (n : ℝ))
  let ssd := differences.foldl (fun s d =>
    oAdd s (oMul (oSub (some d) meanDiff) (oSub (some d) meanDiff))) (some 0)
  let variance := oDiv ssd (some ((n : ℝ) - 1))
  let adfStat := oDiv meanDiff (oSqrt (oDiv variance (some (n : ℝ))))
  let isStationary :=
    match adfStat with
    | none => false
    | some s => decide (s < -2.86)
  ⟨adfStat, isStationary, some (if isStationary then 0.03 else 0.15)⟩

/-! ## Normal CDF and chi-square tail (script.js:5119-5135) -/

/-- `normalCdf` (script.js:5119-5126), embedded exactly as written: the
`prob` reassignment for `z > 0` followed by the `z >= 0 ? 1 - prob : prob`
return (so for `z > 0` the function actually returns the upper tail). -/
noncomputable def normalCdf (z : ℝ) : ℝ :=
  let t := 1 / (1 + 0.2316419 * |z|)
  let d := 0.3989423 * Real.exp (-z * z / 2)
  let prob0 := d * t * (0.3193815 + t * (-0.3565638 + t *
    (1.781478 + t * (-1.821256 + t * 1.330274))))
  let prob := if 0 < z then 1 - prob0 else prob0
  if 0 ≤ z then 1 - prob else prob

/-- `chiSquareUpperTailP` (script.js:5128-5135): Wilson-Hilferty transform,
clamped to `[0, 1]`.  JS `Math.pow(x, 1/3)` is `NaN` for `x < 0`, and that
`NaN` propagates through `normalCdf`, `1 - ·`, `Math.max(·, 0)` and
`Math.min(·, 1)`; the `Q / df < 0` branch models that propagation. -/
noncomputable def chiSquareUpperTailP (Q df : ℝ) : Option ℝ :=
  if df ≤ 0 then some 1
  else
    let a := 1 - 2 / (9 * df)
    if Q / df < 0 then none
    else
      let z := ((Q / df) ^ ((1 : ℝ) / 3) - a) / Real.sqrt (2 / (9 * df))
      some (min (max (1 - normalCdf z) 0) 1)

/-! ## Jarque-Bera (script.js:5137-5154), Ljung-Box (script.js:5176-5189),
ARCH-LM (script.js:5223-5251) -/

structure JarqueBeraResult where
  jb : Option ℝ
  pValue : Option ℝ

/-- `computeJarqueBera` (script.js:5137-5154): `{jb: NaN, pValue: NaN}` for
`n < 8`; otherwise centered moments, `JB = (n/6)(skew² + (kurt-3)²/4)`,
`pValue = exp(-JB/2)`.  `skew`/`kurt` are `NaN` when `m2 = 0` (a `0/0`). -/
noncomputable def computeJarqueBera (values : List ℝ) : JarqueBeraResult :=
  let n := values.length
  if n < 8 then ⟨none, none⟩
  else
    let mean := values.sum / (n : ℝ)
    let m2 := (values.map (fun x => (x - mean) ^ 2)).sum / (n : ℝ)
    let m3 := (values.map (fun x => (x - mean) ^ 3)).sum / (n : ℝ)
    let m4 := (values.map (fun x => (x - mean) ^ 4)).sum / (n : ℝ)
    let skew := oDiv (some m3) (some (m2 ^ (1.5 : ℝ)))
    let kurt := oDiv (some m4) (some (m2 * m2))
    let jb := oMul (some ((n : ℝ) / 6))
      (oAdd (oMul skew skew)
        (oDiv (oMul (oSub kurt (some 3)) (oSub kurt (some 3))) (some 4)))
    ⟨jb, jb.map (fun j => Real.exp (-j / 2))⟩

structure LjungBoxResult where
  Q : Option ℝ
  pValue : Option ℝ

/-- `ljungBoxTest` (script.js:5176-5189): `{Q: NaN, pValue: NaN}` for
`n < m + 1`; otherwise `Q = n(n+2) Σ_{k=1}^m r_k²/(n-k)` over the guarded
autocorrelations, `df = max(1, m - p)`, p-value from the chi-square tail. -/
noncomputable def ljungBoxTest (residuals : List ℝ) (m p : ℕ) :
    LjungBoxResult :=
  let n := residuals.length
  if n < m + 1 then ⟨none, none⟩
  else
    let ac := computeAutocorrelations residuals m
    let Q0 := (List.range' 1 m).foldl (fun acc k =>
      oAdd acc (oDiv (oMul (ac.getD (k - 1) none) (ac.getD (k - 1) none))
        (some ((n : ℝ) - k)))) (some 0)
    let Q := oMul Q0 (some ((n : ℝ) * (n + 2)))
    let df := max 1 (m - p)
    -- a NaN `Q` propagates to a NaN p-value (`df = max(1, m-p) ≥ 1`, so the
    -- `df <= 0` early return of `chiSquareUpperTailP` cannot intervene)
    let pValue := Q.bind (fun q => chiSquareUpperTailP q (df : ℝ))
    ⟨Q, pValue⟩

structure ArchLMResult where
  LM : Option ℝ
  pValue : Option ℝ
  R2 : Option ℝ

/-- `archLMTest` (script.js:5223-5251): `{LM: NaN, pValue: NaN, R2: NaN}`
for `n < m + 2`; otherwise an OLS of squared residuals on their first lag
with guarded divisions (`varX ? cov/varX : 0`, `tss ? 1 - ssr/tss : 0`),
`LM = nEff * max(0, R2)`, p-value from the chi-square tail with `df = m`. -/
noncomputable def archLMTest (residuals : List ℝ) (m : ℕ) : ArchLMResult :=
  let n := residuals.length
  if n < m + 2 then ⟨none, none, none⟩
  else
    let y := residuals.map (fun r => r * r)
    let Y := y.drop 1
    let X := y.take (y.length - 1)
    let meanX := X.sum / X.length
    let meanY := Y.sum / Y.length
    let cov := ((X.zip Y).map (fun q => (q.1 - meanX) * (q.2 - meanY))).sum
    let varX := (X.map (fun x => (x - meanX) ^ 2)).sum
    let beta := if varX = 0 then 0 else cov / varX
    let alpha := meanY - beta * meanX
    let ssr := ((X.zip Y).map (fun q => (q.2 - (alpha + beta * q.1)) ^ 2)).sum
    let tss := (Y.map (fun yv => (yv - meanY) ^ 2)).sum
    let R2 := if tss = 0 then 0 else 1 - ssr / tss
    let LM := (X.length : ℝ) * max 0 R2
    ⟨some LM, chiSquareUpperTailP LM m, some R2⟩

theorem oDiv_none_right (x : Option ℝ) : oDiv x none = none := by
  cases x <;> rfl

theorem oDiv_zero_right (x : Option ℝ) : oDiv x (some 0) = none := by
  cases x with
  | none => rfl
  | some v => simp [oDiv]

theorem chiSquare_pValue_cases (Q df : ℝ) :
    chiSquareUpperTailP Q df = none ∨
    ∃ p, chiSquareUpperTailP Q df = some p ∧ 0 ≤ p ∧ p ≤ 1 := by
  rw [chiSquareUpperTailP]
  split
  · exact Or.inr ⟨1, rfl, by norm_num⟩
  · simp only
    split
    · exact Or.inl rfl
    · exact Or.inr ⟨_, rfl, le_min (le_max_right _ _) zero_le_one,
        min_le_right _ _⟩

theorem obind_chiSquare_cases (Q : Option ℝ) (df : ℝ) :
    Q.bind (fun q => chiSquareUpperTailP q df) = none ∨
    ∃ p, Q.bind (fun q => chiSquareUpperTailP q df) = some p ∧
      0 ≤ p ∧ p ≤ 1 := by
  cases Q with
  | none => exact Or.inl rfl
  | some q => exact chiSquare_pValue_cases q df

/-- C9: for every finite-valued input, the p-value returned by each
diagnostic test (`adfTest`, `ljungBoxTest`, `archLMTest`,
`computeJarqueBera`) and by the shared chi-square upper-tail approximation is
either NaN (`none`) or a real number in `[0, 1]`; never a finite value
outside that interval. -/
theorem diagnostic_pvalues_in_unit_interval :
    (∀ Q df : ℝ, chiSquareUpperTailP Q df = none ∨
      ∃ p, chiSquareUpperTailP Q df = some p ∧ 0 ≤ p ∧ p ≤ 1) ∧
    (∀ prices : List ℝ,
      ∃ p, (adfTest prices).pValue = some p ∧ 0 ≤ p ∧ p ≤ 1) ∧
    (∀ (residuals : List ℝ) (m p : ℕ),
      (ljungBoxTest residuals m p).pValue = none ∨
      ∃ q, (ljungBoxTest residuals m p).pValue = some q ∧ 0 ≤ q ∧ q ≤ 1) ∧
    (∀ (residuals : List ℝ) (m : ℕ),
      (archLMTest residuals m).pValue = none ∨
      ∃ q, (archLMTest residuals m).pValue = some q ∧ 0 ≤ q ∧ q ≤ 1) ∧
    (∀ values : List ℝ,
      (computeJarqueBera values).pValue = none ∨
      ∃ q, (computeJarqueBera values).pValue = some q ∧ 0 ≤ q ∧ q ≤ 1) := by
  refine ⟨chiSquare_pValue_cases, ?_, ?_, ?_, ?_⟩
  · intro prices
    refine ⟨if (adfTest prices).isStationary then 0.03 else 0.15, rfl, ?_, ?_⟩
      <;> split <;> norm_num
  · intro residuals m p
    rw [ljungBoxTest]
    split
    · exact Or.inl rfl
    · exact obind_chiSquare_cases _ _
  · intro residuals m
    rw [archLMTest]
    split
    · exact Or.inl rfl
    · exact chiSquare_pValue_cases _ _
  · intro values
    rw [computeJarqueBera]
    split
    · exact Or.inl rfl
    · by_cases h2 : ((((values.map (fun x =>
          (x - values.sum / (values.length : ℝ)) ^ 2)).sum /
          (values.length : ℝ)) ^ (1.5 : ℝ)) = 0)
      · left
        simp [oDiv, oMul, oAdd, oSub, h2]
      · by_cases h3 : ((((values.map (fun x =>
            (x - values.sum / (values.length : ℝ)) ^ 2)).sum /
            (values.length : ℝ)) * ((values.map (fun x =>
            (x - values.sum / (values.length : ℝ)) ^ 2)).sum /
            (values.length : ℝ))) = 0)
        · left
          simp [oDiv, oMul, oAdd, oSub, h2, h3]
        · right
          simp only [oDiv, oMul, oAdd, oSub, if_neg h2, if_neg h3,
            (by norm_num : ¬ ((4 : ℝ) = 0)), if_false, Option.map_some]
          refine ⟨_, rfl, Real.exp_nonneg _, ?_⟩
          rw [Real.exp_le_one_iff, neg_div, neg_nonpos]
          have key : ∀ a s u : ℝ, 0 ≤ a →
              0 ≤ a / 6 * (s * s + (u - 3) * (u - 3) / 4) / 2 := by
            intro a s u ha
            have h1 := mul_self_nonneg s
            have h2 := mul_self_nonneg (u - 3)
            have h3 : 0 ≤ s * s + (u - 3) * (u - 3) / 4 := by
              have h4 := div_nonneg h2 (by norm_num : (0 : ℝ) ≤ 4)
              linarith
            have h5 : 0 ≤ a / 6 := by linarith
            have h6 := mul_nonneg h5 h3
            linarith
          exact key _ _ _ (Nat.cast_nonneg _)

/-- On a series with at most one difference (`prices.length ≤ 2`) the ADF
statistic is a `0/0`, i.e. NaN. -/
theorem adf_statistic_none_of_short (prices : List ℝ)
    (h : prices.length ≤ 2) : (adfTest prices).statistic = none := by
  have h1 : (diffs prices).length ≤ 1 := by
    rw [diffs_length]; omega
  rcases hd : diffs prices with _ | ⟨d, tl⟩
  · simp [adfTest, hd, oDiv]
  · have htl : tl = [] := by
      rw [hd] at h1
      simpa using h1
    subst htl
    norm_num [adfTest, hd, oDiv, oSqrt, oAdd, oMul, oSub]

/-- C6 (amended): each diagnostic degrades without throwing on an
undersized sample — `adfTest` on a series with at most one difference
returns a NaN statistic but the placeholder p-value `0.15` (a NaN statistic
fails the `< -2.86` comparison, so `isStationary` is false and the p-value is
a finite literal, not NaN); `ljungBoxTest` with `n < m + 1` returns NaN `Q`
and NaN p-value; `computeJarqueBera` with `n < 8` returns NaN statistic and
NaN p-value. -/
theorem short_sample_diagnostics :
    (∀ prices : List ℝ, prices.length ≤ 2 →
      (adfTest prices).statistic = none ∧
      (adfTest prices).isStationary = false ∧
      (adfTest prices).pValue = some 0.15) ∧
    (∀ (residuals : List ℝ) (m p : ℕ), residuals.length < m + 1 →
      (ljungBoxTest residuals m p).Q = none ∧
      (ljungBoxTest residuals m p).pValue = none) ∧
    (∀ values : List ℝ, values.length < 8 →
      (computeJarqueBera values).jb = none ∧
      (computeJarqueBera values).pValue = none) := by
  refine ⟨?_, ?_, ?_⟩
  · intro prices h
    have hstat := adf_statistic_none_of_short prices h
    have hst : (adfTest prices).isStationary =
        (match (adfTest prices).statistic with
         | none => false
         | some s => decide (s < -2.86)) := rfl
    have hfalse : (adfTest prices).isStationary = false := by
      rw [hst, hstat]
    have hpv : (adfTest prices).pValue =
        some (if (adfTest prices).isStationary then 0.03 else 0.15) := rfl
    refine ⟨hstat, hfalse, ?_⟩
    rw [hpv, hfalse]
    norm_num
  · intro residuals m p h
    rw [ljungBoxTest, if_pos h]
    exact ⟨rfl, rfl⟩
  · intro values h
    rw [computeJarqueBera, if_pos h]
    exact ⟨rfl, rfl⟩

/-- Witness for C6's amended theorem: `adfTest [5]`,
`ljungBoxTest [1, 2] 2 0`, `computeJarqueBera [1]`. -/
theorem short_sample_diagnostics_witness :
    (([5] : List ℝ).length ≤ 2 ∧
     (adfTest [5]).statistic = none ∧
     (adfTest [5]).isStationary = false ∧
     (adfTest [5]).pValue = some 0.15) ∧
    (([1, 2] : List ℝ).length < 2 + 1 ∧
     (ljungBoxTest [1, 2] 2 0).Q = none ∧
     (ljungBoxTest [1, 2] 2 0).pValue = none) ∧
    (([1] : List ℝ).length < 8 ∧
     (computeJarqueBera [1]).jb = none ∧
     (computeJarqueBera [1]).pValue = none) :=
  ⟨⟨by decide, short_sample_diagnostics.1 [5] (by decide)⟩,
   ⟨by decide, short_sample_diagnostics.2.1 [1, 2] 2 0 (by decide)⟩,
   ⟨by decide, short_sample_diagnostics.2.2 [1] (by decide)⟩⟩

/-- Counterexample to C6 as stated: on the one-element series `[5]` (too
short for the ADF statistic, which is NaN) the returned p-value is the
finite placeholder `0.15`, not NaN. -/
theorem adf_short_pvalue_not_nan_counterexample :
    (adfTest [5]).statistic = none ∧
    (adfTest [5]).pValue = some 0.15 ∧
    (adfTest [5]).pValue ≠ none := by
  have hstat : (adfTest ([5] : List ℝ)).statistic = none :=
    adf_statistic_none_of_short [5] (by decide)
  have hst : (adfTest ([5] : List ℝ)).isStationary =
      (match (adfTest ([5] : List ℝ)).statistic with
       | none => false
       | some s => decide (s < -2.86)) := rfl
  have hfalse : (adfTest ([5] : List ℝ)).isStationary = false := by
    rw [hst, hstat]
  have hpv : (adfTest ([5] : List ℝ)).pValue =
      some (if (adfTest ([5] : List ℝ)).isStationary then 0.03 else 0.15) :=
    rfl
  have hp2 : (adfTest ([5] : List ℝ)).pValue = some 0.15 := by
    rw [hpv, hfalse]
    norm_num
  exact ⟨hstat, hp2, by rw [hp2]; exact Option.some_ne_none _⟩

/-! ## Gaussian likelihood, MA(1) and ARMA(1,1) fitters
(script.js:1120-1210, 5216-5219)

The concentrated Gaussian log-likelihood and the AIC/BIC formulas shared by
the three fitters.  `Real.log 0 = 0` stands in for JS `log(0) = -Infinity`;
the C3 identity concerns the real-arithmetic semantics of the formulas. -/

/-- `logL = -0.5 * nEff * (ln(2π) + ln(sigma2) + 1)` (script.js:5216, 1142,
1192). -/
noncomputable def gaussLogL (nEff : ℕ) (sigma2 : ℝ) : ℝ :=
  -0.5 * (nEff : ℝ) * (Real.log (2 * Real.pi) + Real.log sigma2 + 1)

/-- AIC of `fitAR1OnDiff` (script.js:5216-5218, `k = 2`); a real-valued
function of the rational fit so that the fitter itself stays computable. -/
noncomputable def AR1AIC (f : AR1Fit) : ℝ :=
  -2 * gaussLogL f.residuals.length (f.sigma2 : ℝ) + 2 * 2

/-- BIC of `fitAR1OnDiff` (script.js:5219, `k = 2`). -/
noncomputable def AR1BIC (f : AR1Fit) : ℝ :=
  -2 * gaussLogL f.residuals.length (f.sigma2 : ℝ) +
    2 * Real.log ((max 1 f.residuals.length : ℕ) : ℝ)

/-- `estimateThetaFromACF1` (script.js:1200-1210): clamp `rho1` into
`[-0.49, 0.49]`; for `|r|` above the `1e-6` tolerance solve the quadratic
with roots `(1 ∓ √(1-4r²))/(2r)`, select the root with `|θ| ≤ 1`, and clamp
to `±0.99` if above in magnitude. -/
noncomputable def estimateThetaFromACF1 (rho1 : ℝ) : ℝ :=
  let r := max (-0.49) (min 0.49 rho1)
  if |r| < 1e-6 then 0
  else
    let disc := 1 - 4 * r * r
    if disc < 0 then 0
    else
      let t1 := (1 - Real.sqrt disc) / (2 * r)
      let t2 := (1 + Real.sqrt disc) / (2 * r)
      let theta := if |t1| ≤ 1 then t1 else t2
      if 0.99 < |theta| then Real.sign theta * 0.99 else theta

/-- The residual recursion `e_t = x_t - θ·e_{t-1}` of `fitMA1OnDiff`
(script.js:1133-1139), carrying `epsPrev`. -/
noncomputable def maResidualsAux (theta epsPrev : ℝ) : List ℝ → List ℝ
  | [] => []
  | xt :: rest =>
    (xt - theta * epsPrev) :: maResidualsAux theta (xt - theta * epsPrev) rest

theorem maResidualsAux_length (theta epsPrev : ℝ) (x : List ℝ) :
    (maResidualsAux theta epsPrev x).length = x.length := by
  induction x generalizing epsPrev with
  | nil => rfl
  | cons xt rest ih => simp [maResidualsAux, ih]

structure MA1Fit where
  theta : ℝ
  residuals : List ℝ
  sigma2 : ℝ
  logL : ℝ
  AIC : ℝ
  BIC : ℝ

/-- `fitMA1OnDiff` (script.js:1121-1147): de-mean the differences, take the
lag-1 ACF value (the `isFinite(acf[1]) ? acf[1] : 0` guard coincides with
the real-valued embedding, which already yields `0` for the constant-series
`0/0`), invert it into `θ`, reconstruct residuals recursively, `k = 2`.
`none` is the all-NaN early return for `prices.length < 3`. -/
noncomputable def fitMA1OnDiff (prices : List ℝ) : Option MA1Fit :=
  if prices.length < 3 then none
  else
    let returns := diffs prices
    let n := returns.length
    let mean := returns.sum / (n : ℝ)
    let x := returns.map (fun v => v - mean)
    let acf := calculateACF x 2
    let rho1 := acf.getD 1 0
    let theta := estimateThetaFromACF1 rho1
    let residuals := maResidualsAux theta 0 x
    let nEff := residuals.length
    let sigma2 := (residuals.map (fun e => e * e)).sum / ((max 1 nEff : ℕ) : ℝ)
    let logL := gaussLogL nEff sigma2
    some ⟨theta, residuals, sigma2, logL,
      -2 * logL + 2 * 2,
      -2 * logL + 2 * Real.log ((max 1 nEff : ℕ) : ℝ)⟩

/-- The residual recursion `e_t = x_t - φ·x_{t-1} - θ·e_{t-1}` of
`fitARMA11OnDiff` (script.js:1164-1189), carrying the previous `x` and
`eps`. -/
noncomputable def armaResidualsAux (phi theta xprev epsPrev : ℝ) :
    List ℝ → List ℝ
  | [] => []
  | xt :: rest =>
    (xt - phi * xprev - theta * epsPrev) ::
      armaResidualsAux phi theta xt (xt - phi * xprev - theta * epsPrev) rest

/-- Residuals for `t = 1 .. x.length - 1` (the loops start at `t = 1`). -/
noncomputable def armaResiduals (phi theta : ℝ) : List ℝ → List ℝ
  | [] => []
  | x0 :: rest => armaResidualsAux phi theta x0 0 rest

theorem armaResidualsAux_length (phi theta xprev epsPrev : ℝ) (x : List ℝ) :
    (armaResidualsAux phi theta xprev epsPrev x).length = x.length := by
  induction x generalizing xprev epsPrev with
  | nil => rfl
  | cons xt rest ih => simp [armaResidualsAux, ih]

theorem armaResiduals_length (phi theta : ℝ) (x : List ℝ) :
    (armaResiduals phi theta x).length = x.length - 1 := by
  cases x with
  | nil => rfl
  | cons x0 rest => simp [armaResiduals, armaResidualsAux_length]

/-- One step of the grid search of `fitARMA11OnDiff` (script.js:1162-1180):
adopt `(φ, θ)` when its mean squared residual is strictly below the running
best.  The JS running best starts at `Infinity`, so the first candidate is
always adopted: the accumulator is `none` before the first step. -/
noncomputable def armaBestStep (x : List ℝ) (best : Option (ℝ × ℝ × ℝ))
    (pt : ℝ × ℝ) : Option (ℝ × ℝ × ℝ) :=
  let e := armaResiduals pt.1 pt.2 x
  let sigma2 := (e.map (fun v => v * v)).sum / ((max 1 e.length : ℕ) : ℝ)
  match best with
  | none => some (pt.1, pt.2, sigma2)
  | some b => if sigma2 < b.2.2 then some (pt.1, pt.2, sigma2) else best

structure ARMA11Fit where
  phi : ℝ
  theta : ℝ
  residuals : List ℝ
  sigma2 : ℝ
  logL : ℝ
  AIC : ℝ
  BIC : ℝ

/-- `fitARMA11OnDiff` (script.js:1150-1197): de-mean the differences,
grid-search `φ, θ ∈ {-0.9, -0.8, …, 0.9}` (the JS float loop idealized to
exact steps) minimizing the mean squared residual, recompute residuals at
the argmin, `k = 3`.  `none` is the all-NaN early return for
`prices.length < 4`. -/
noncomputable def fitARMA11OnDiff (prices : List ℝ) : Option ARMA11Fit :=
  if prices.length < 4 then none
  else
    let returns := diffs prices
    let n := returns.length
    let mean := returns.sum / (n : ℝ)
    let x := returns.map (fun v => v - mean)
    let grid := (List.range 19).map (fun i => (-0.9 + (i : ℝ) * 0.1))
    let pairs := grid.flatMap (fun ph => grid.map (fun th => (ph, th)))
    let best := pairs.foldl (armaBestStep x) none
    let bestPhi := match best with | none => 0 | some b => b.1
    let bestTheta := match best with | none => 0 | some b => b.2.1
    let residuals := armaResiduals bestPhi bestTheta x
    let nEff := residuals.length
    let sigma2 := (residuals.map (fun e => e * e)).sum / ((max 1 nEff : ℕ) : ℝ)
    let logL := gaussLogL nEff sigma2
    some ⟨bestPhi, bestTheta, residuals, sigma2, logL,
      -2 * logL + 2 * 3,
      -2 * logL + 3 * Real.log ((max 1 nEff : ℕ) : ℝ)⟩

theorem log_max_identity (k : ℝ) (n : ℕ) (L : ℝ) (h : 1 ≤ n) :
    -2 * L + k * Real.log ((max 1 n : ℕ) : ℝ) =
      (-2 * L + 2 * k) + k * (Real.log (n : ℝ) - 2) := by
  rw [Nat.max_eq_right h]
  ring

/-- C3: for every fit returned by any of the three fitters, the identity
`BIC = AIC + k·(ln(nEff) - 2)` holds exactly, with `k = 2, 2, 3` and
`nEff` the residual count (which is at least 1 whenever a fit is
returned). -/
theorem information_criteria_identity :
    (∀ (prices : List ℚ) (f : AR1Fit), fitAR1OnDiff prices = some f →
      AR1BIC f = AR1AIC f + 2 * (Real.log (f.residuals.length : ℝ) - 2)) ∧
    (∀ (prices : List ℝ) (f : MA1Fit), fitMA1OnDiff prices = some f →
      f.BIC = f.AIC + 2 * (Real.log (f.residuals.length : ℝ) - 2)) ∧
    (∀ (prices : List ℝ) (f : ARMA11Fit), fitARMA11OnDiff prices = some f →
      f.BIC = f.AIC + 3 * (Real.log (f.residuals.length : ℝ) - 2)) := by
  refine ⟨?_, ?_, ?_⟩
  · intro prices f hf
    rw [fitAR1OnDiff] at hf
    split at hf
    · exact absurd hf (by simp)
    · rename_i h
      rw [Option.some_inj] at hf
      subst hf
      refine log_max_identity 2 _ _ ?_
      simp only [List.length_zipWith, List.length_drop, List.length_take,
        diffs_length]
      omega
  · intro prices f hf
    rw [fitMA1OnDiff] at hf
    split at hf
    · exact absurd hf (by simp)
    · rename_i h
      rw [Option.some_inj] at hf
      subst hf
      refine log_max_identity 2 _ _ ?_
      rw [maResidualsAux_length]
      simp only [List.length_map, diffs_length]
      omega
  · intro prices f hf
    rw [fitARMA11OnDiff] at hf
    split at hf
    · exact absurd hf (by simp)
    · rename_i h
      rw [Option.some_inj] at hf
      subst hf
      refine log_max_identity 3 _ _ ?_
      rw [armaResiduals_length]
      simp only [List.length_map, diffs_length]
      omega

theorem fitMA1_at_012 :
    fitMA1OnDiff [0, 1, 2] = some ⟨0, [0, 0], 0, gaussLogL 2 0,
      -2 * gaussLogL 2 0 + 4, -2 * gaussLogL 2 0 + 2 * Real.log 2⟩ := by
  have htheta : estimateThetaFromACF1 0 = 0 := by
    rw [estimateThetaFromACF1]
    norm_num
  rw [fitMA1OnDiff]
  rw [if_neg (by norm_num)]
  norm_num [diffs, calculateACF, List.range_succ, maResidualsAux, htheta]

theorem armaFold_zeros (pts : List (ℝ × ℝ)) (p t : ℝ) :
    pts.foldl (armaBestStep [0, 0, 0]) (some (p, t, 0)) = some (p, t, 0) := by
  induction pts generalizing p t with
  | nil => rfl
  | cons pt rest ih =>
    rw [List.foldl_cons]
    have hstep : armaBestStep [0, 0, 0] (some (p, t, 0)) pt = some (p, t, 0) := by
      simp [armaBestStep, armaResiduals, armaResidualsAux]
    rw [hstep]
    exact ih p t

theorem fitARMA_at_0123 :
    fitARMA11OnDiff [0, 1, 2, 3] = some ⟨-0.9, -0.9, [0, 0], 0, gaussLogL 2 0,
      -2 * gaussLogL 2 0 + 6, -2 * gaussLogL 2 0 + 3 * Real.log 2⟩ := by
  have hrange : List.range 19 = 0 :: (List.range 18).map Nat.succ :=
    List.range_succ_eq_map 18
  rw [fitARMA11OnDiff]
  rw [if_neg (by norm_num)]
  norm_num [diffs, hrange, List.flatMap_cons, List.foldl_cons,
    armaBestStep, armaResiduals, armaResidualsAux, armaFold_zeros]

/-- Witness for C3 at `[0, 1, 3]` (AR(1)), `[0, 1, 2]` (MA(1)) and
`[0, 1, 2, 3]` (ARMA(1,1)). -/
theorem information_criteria_identity_witness :
    (fitAR1OnDiff [0, 1, 3] = some ⟨2, [0], 0⟩ ∧
     AR1BIC ⟨2, [0], 0⟩ = AR1AIC ⟨2, [0], 0⟩ +
       2 * (Real.log (((⟨2, [0], 0⟩ : AR1Fit)).residuals.length : ℝ) - 2)) ∧
    (fitMA1OnDiff [0, 1, 2] = some ⟨0, [0, 0], 0, gaussLogL 2 0,
        -2 * gaussLogL 2 0 + 4, -2 * gaussLogL 2 0 + 2 * Real.log 2⟩ ∧
     (⟨0, [0, 0], 0, gaussLogL 2 0, -2 * gaussLogL 2 0 + 4,
        -2 * gaussLogL 2 0 + 2 * Real.log 2⟩ : MA1Fit).BIC =
       (⟨0, [0, 0], 0, gaussLogL 2 0, -2 * gaussLogL 2 0 + 4,
        -2 * gaussLogL 2 0 + 2 * Real.log 2⟩ : MA1Fit).AIC +
       2 * (Real.log (((⟨0, [0, 0], 0, gaussLogL 2 0,
        -2 * gaussLogL 2 0 + 4, -2 * gaussLogL 2 0 + 2 * Real.log 2⟩ :
        MA1Fit)).residuals.length : ℝ) - 2)) ∧
    (fitARMA11OnDiff [0, 1, 2, 3] = some ⟨-0.9, -0.9, [0, 0], 0,
        gaussLogL 2 0, -2 * gaussLogL 2 0 + 6,
        -2 * gaussLogL 2 0 + 3 * Real.log 2⟩ ∧
     (⟨-0.9, -0.9, [0, 0], 0, gaussLogL 2 0, -2 * gaussLogL 2 0 + 6,
        -2 * gaussLogL 2 0 + 3 * Real.log 2⟩ : ARMA11Fit).BIC =
       (⟨-0.9, -0.9, [0, 0], 0, gaussLogL 2 0, -2 * gaussLogL 2 0 + 6,
        -2 * gaussLogL 2 0 + 3 * Real.log 2⟩ : ARMA11Fit).AIC +
       3 * (Real.log (((⟨-0.9, -0.9, [0, 0], 0, gaussLogL 2 0,
        -2 * gaussLogL 2 0 + 6, -2 * gaussLogL 2 0 + 3 * Real.log 2⟩ :
        ARMA11Fit)).residuals.length : ℝ) - 2)) := by
  have h1 : fitAR1OnDiff [0, 1, 3] = some ⟨2, [0], 0⟩ := by
    norm_num [fitAR1OnDiff, diffs]
  have h2 := fitMA1_at_012
  have h3 := fitARMA_at_0123
  exact ⟨⟨h1, information_criteria_identity.1 [0, 1, 3] _ h1⟩,
         ⟨h2, information_criteria_identity.2.1 [0, 1, 2] _ h2⟩,
         ⟨h3, information_criteria_identity.2.2 [0, 1, 2, 3] _ h3⟩⟩

/-- C4 (amended): with `r` the clamped lag-1 autocorrelation, whenever `|r|`
is above the `1e-6` tolerance the returned `θ` satisfies the MA(1)
autocorrelation equation with the **positive** sign convention
`r = θ/(1+θ²)` (the source solves `r·θ² - θ + r = 0`, matching its residual
recursion `e_t = x_t - θ·e_{t-1}`, i.e. `x_t = e_t + θ·e_{t-1}`, not the
spec's `r = -θ/(1+θ²)`), and `θ` is the invertible root with `|θ| ≤ 1`; on
the clamped range the `±0.99` borderline clamp never modifies it. -/
theorem estimateTheta_inverts_positive_acf_equation (rho1 : ℝ)
    (h : 1e-6 ≤ |max (-0.49) (min 0.49 rho1)|) :
    max (-0.49) (min 0.49 rho1) =
      estimateThetaFromACF1 rho1 / (1 + estimateThetaFromACF1 rho1 ^ 2) ∧
    |estimateThetaFromACF1 rho1| ≤ 1 := by
  set r := max (-0.49) (min 0.49 rho1) with hrdef
  have hr_le : |r| ≤ 0.49 := by
    rw [abs_le]
    constructor
    · exact le_max_left _ _
    · rw [hrdef]
      exact max_le (by norm_num) (min_le_left _ _)
  have hr_pos : 0 < |r| := lt_of_lt_of_le (by norm_num) h
  have hr0 : r ≠ 0 := fun hc => by simp [hc] at hr_pos
  have hrsq : r ^ 2 ≤ 0.49 ^ 2 := by
    rw [← sq_abs]
    exact pow_le_pow_left₀ (abs_nonneg r) hr_le 2
  have hdisc_pos : 0 < 1 - 4 * r * r := by nlinarith
  have hdisc_le : 1 - 4 * r * r ≤ 1 := by nlinarith [sq_nonneg r]
  set s := Real.sqrt (1 - 4 * r * r) with hsdef
  have hs0 : 0 ≤ s := Real.sqrt_nonneg _
  have hs2 : s ^ 2 = 1 - 4 * r * r := Real.sq_sqrt hdisc_pos.le
  have hs1 : s ≤ 1 := Real.sqrt_le_one.mpr hdisc_le
  have habs2r : |2 * r| = 2 * |r| := by
    rw [abs_mul]
    norm_num
  have ht1_le : |(1 - s) / (2 * r)| ≤ 1 := by
    rw [abs_div, habs2r, div_le_one (by linarith)]
    rw [abs_of_nonneg (by linarith : (0 : ℝ) ≤ 1 - s)]
    nlinarith [sq_abs r, sq_nonneg (1 - s), sq_nonneg (|r| - 0.5)]
  have ht1_99 : |(1 - s) / (2 * r)| ≤ 0.99 := by
    rw [abs_div, habs2r, div_le_iff₀ (by linarith)]
    rw [abs_of_nonneg (by linarith : (0 : ℝ) ≤ 1 - s)]
    nlinarith [sq_abs r, mul_nonneg hs0 (abs_nonneg r)]
  have hval : estimateThetaFromACF1 rho1 = (1 - s) / (2 * r) := by
    simp only [estimateThetaFromACF1, ← hrdef]
    rw [if_neg (not_lt.mpr h), if_neg (not_lt.mpr hdisc_pos.le), ← hsdef,
      if_pos ht1_le, if_neg (not_lt.mpr ht1_99)]
  rw [hval]
  refine ⟨?_, ht1_le⟩
  have hdpos : (0 : ℝ) < 1 + ((1 - s) / (2 * r)) ^ 2 := by positivity
  rw [eq_div_iff hdpos.ne']
  field_simp
  ring_nf
  nlinarith [hs2, sq_nonneg r, sq_nonneg s]

/-- Witness for C4's amended theorem at `rho1 = 0.4`. -/
theorem estimateTheta_inverts_witness :
    1e-6 ≤ |max (-0.49) (min 0.49 (0.4 : ℝ))| ∧
    (max (-0.49) (min 0.49 (0.4 : ℝ)) =
      estimateThetaFromACF1 0.4 / (1 + estimateThetaFromACF1 0.4 ^ 2) ∧
     |estimateThetaFromACF1 0.4| ≤ 1) :=
  ⟨by norm_num [abs_of_nonneg],
   estimateTheta_inverts_positive_acf_equation 0.4 (by norm_num [abs_of_nonneg])⟩

/-- Counterexample to C4 as stated: at `rho1 = 0.4` (clamped `r = 0.4`,
above the tolerance) the returned coefficient is `θ = 0.5`, and
`r = 0.4 ≠ -θ/(1+θ²) = -0.4`: the code satisfies the positive-sign MA(1)
equation, not the claimed `r = -θ/(1+θ²)`. -/
theorem ma1_theta_negative_equation_counterexample :
    1e-6 ≤ |max (-0.49) (min 0.49 (0.4 : ℝ))| ∧
    estimateThetaFromACF1 0.4 = 0.5 ∧
    max (-0.49) (min 0.49 (0.4 : ℝ)) ≠
      -(estimateThetaFromACF1 0.4) / (1 + estimateThetaFromACF1 0.4 ^ 2) := by
  have hsB : Real.sqrt ((9 : ℝ) / 25) = 3 / 5 := by
    rw [show ((9 : ℝ) / 25) = (3 / 5 : ℝ) ^ 2 by norm_num]
    exact Real.sqrt_sq (by norm_num)
  have hsC : Real.sqrt (0.36 : ℝ) = 0.6 := by
    rw [show (0.36 : ℝ) = (0.6 : ℝ) ^ 2 by norm_num]
    exact Real.sqrt_sq (by norm_num)
  have hval : estimateThetaFromACF1 0.4 = 0.5 := by
    norm_num [estimateThetaFromACF1, hsB, hsC, abs_of_nonneg]
  refine ⟨by norm_num [abs_of_nonneg], hval, ?_⟩
  rw [hval]
  norm_num

end Dollar
